import Mathlib

/-!
Verification development for the `tui-md` markdown renderer.

The definitions below are a shallow embedding of `src/renderer.rs` and
`src/syntax.rs`: the ratatui data model (`Color`, `Style`, `Span`, `Line`),
the pulldown-cmark event vocabulary the renderer consumes, and the
event-walking renderer itself (`Renderer`, `processEvent`, `renderEvents`,
`render`).  The external syntect highlighting resources are modelled as an
abstract `HighlightDb` oracle; the repository's own fallback path
(`plain_code_lines`) and the structural shape of `highlight_with_syntect`
are embedded faithfully.
-/

namespace TuiMd

/-- ratatui `Color` (only the variants the renderer uses). -/
inductive Color where
  | cyan
  | green
  | yellow
  | blue
  | magenta
  | gray
  | darkGray
  | rgb (r g b : Nat)
deriving DecidableEq, Repr

/-- ratatui `Style`: optional fg/bg color plus the modifier flags the
renderer uses (BOLD, ITALIC, CROSSED_OUT, UNDERLINED).  `Style::default()`
is the record with all fields at their defaults. -/
structure Style where
  fg : Option Color := none
  bg : Option Color := none
  bold : Bool := false
  italic : Bool := false
  crossedOut : Bool := false
  underlined : Bool := false
deriving DecidableEq, Repr

/-- ratatui `Modifier` (the four the renderer uses). -/
inductive Modifier where
  | bold
  | italic
  | crossedOut
  | underlined
deriving DecidableEq, Repr

/-- `style.add_modifier(m)` from ratatui's builder API. -/
def Style.addModifier (s : Style) : Modifier → Style
  | .bold => { s with bold := true }
  | .italic => { s with italic := true }
  | .crossedOut => { s with crossedOut := true }
  | .underlined => { s with underlined := true }

/-- ratatui `Span`: a run of text with one style. -/
structure Span where
  content : String
  style : Style
deriving DecidableEq, Repr

/-- ratatui `Line`: an ordered sequence of spans. -/
structure Line where
  spans : List Span
deriving DecidableEq, Repr

/-- `Line::from("")`: a line holding a single empty raw span. -/
def emptyLine : Line := ⟨[⟨"", {}⟩]⟩

/-- Rust `s.trim().is_empty()`: every char of the string is whitespace. -/
def strBlank (s : String) : Bool := s.data.all Char.isWhitespace

/-- `line_is_blank` from `renderer.rs`: no spans, or every span's content is
whitespace-only. -/
def line_is_blank (l : Line) : Bool :=
  l.spans.isEmpty || l.spans.all (fun sp => strBlank sp.content)

/-- `str::repeat`. -/
def strRepeat (s : String) (n : Nat) : String := String.join (List.replicate n s)

/-- `CODE_BG` constant (Rgb 30 30 30), shared by `renderer.rs` and
`syntax.rs`. -/
def codeBg : Color := Color.rgb 30 30 30

/-! ## Rust string splitting used by the highlight adapter

`str::lines()` splits on `\n`, drops an optional final line terminator, and
strips a `\r` that immediately precedes a `\n`. -/

/-- Strip one trailing carriage return (the `\r` of a `\r\n` ending). -/
def stripTrailingCR (s : String) : String :=
  match s.data.getLast? with
  | some c => if c = '\r' then String.mk s.data.dropLast else s
  | none => s

/-- Split a character list at every `\n`, keeping empty pieces (the pieces of
splitting on the newline separator). -/
def splitNewlines (cs : List Char) (acc : List Char) : List String :=
  match cs with
  | [] => [String.mk acc.reverse]
  | c :: rest =>
      if c = '\n' then String.mk acc.reverse :: splitNewlines rest []
      else splitNewlines rest (c :: acc)

/-- Helper for `rustLines`: every piece except the last was terminated by
`\n` (so its trailing `\r` is stripped), and a final empty piece (from a
trailing newline, or from the empty string) is dropped. -/
def rustLinesAux : List String → List String
  | [] => []
  | [x] => if x = "" then [] else [x]
  | x :: xs => stripTrailingCR x :: rustLinesAux xs

/-- Rust `str::lines()`. -/
def rustLines (s : String) : List String := rustLinesAux (splitNewlines s.data [])

/-- Rust `trim_end_matches('\n')`: remove every trailing newline char. -/
def trimNewlineEnd (s : String) : String :=
  String.mk (s.data.reverse.dropWhile (fun c => c = '\n')).reverse

/-! ## Highlight adapter (`syntax.rs`)

The syntect syntax set, theme and per-token highlighting are external,
process-wide resources; they are modelled as an abstract oracle.
`lookupLang` stands for `find_syntax_by_token(..).or_else(find_syntax_by_extension(..))`
(a resolved syntax is an abstract id), `initState` for
`HighlightLines::new`, and `highlightLine` for the stateful
`highlight_line` call returning colored regions. -/

structure Rgb where
  r : Nat
  g : Nat
  b : Nat
deriving DecidableEq, Repr

/-- Abstract model of the external syntect resources. -/
structure HighlightDb where
  lookupLang : String → Option Nat
  initState : Nat → Nat
  highlightLine : Nat → String → Nat × List (Rgb × String)

/-- `plain_code_lines` from `syntax.rs`: the fallback for an unresolved
language; each source line verbatim behind a fixed 4-space indent, dim gray
on the dark code background. -/
def plain_code_lines (code : String) : List Line :=
  (rustLines code).map
    (fun lineText => Line.mk [Span.mk ("    " ++ lineText) { fg := some Color.gray, bg := some codeBg }])

/-- The body of `highlight_with_syntect`: walk the code's lines threading the
highlighter state; each output line is the indent span followed by one span
per colored region. -/
def hlLines (db : HighlightDb) : Nat → List String → List Line
  | _, [] => []
  | st, l :: ls =>
    let res := db.highlightLine st l
    Line.mk (Span.mk "    " { bg := some codeBg } ::
        res.2.map (fun reg => Span.mk reg.2 { fg := some (Color.rgb reg.1.r reg.1.g reg.1.b), bg := some codeBg }))
      :: hlLines db res.1 ls

/-- `highlight_with_syntect` from `syntax.rs`. -/
def highlight_with_syntect (db : HighlightDb) (code : String) (syn : Nat) : List Line :=
  hlLines db (db.initState syn) (rustLines code)

/-- `highlight_code` from `syntax.rs`: resolve the language tag; highlight on
success, fall back to plain dimmed lines otherwise. -/
def highlight_code (db : HighlightDb) (code : String) (language : String) : List Line :=
  match db.lookupLang language with
  | some syn => highlight_with_syntect db code syn
  | none => plain_code_lines code

/-! ## Event vocabulary (`pulldown_cmark` subset the renderer consumes) -/

inductive HeadingLevel where
  | h1 | h2 | h3 | h4 | h5 | h6
deriving DecidableEq, Repr

inductive CodeBlockKind where
  | fenced (lang : String)
  | indented
deriving DecidableEq, Repr

inductive Tag where
  | heading (level : HeadingLevel)
  | paragraph
  | strong
  | emphasis
  | strikethrough
  | codeBlock (kind : CodeBlockKind)
  | blockQuote
  | list (firstItem : Option Nat)
  | item
  | link (destUrl : String)
  | image (destUrl : String)
  | table
  | tableHead
  | tableRow
  | tableCell
deriving DecidableEq, Repr

inductive TagEnd where
  | heading (level : HeadingLevel)
  | paragraph
  | strong
  | emphasis
  | strikethrough
  | codeBlock
  | blockQuote
  | list
  | item
  | link
  | image
  | table
  | tableHead
  | tableRow
  | tableCell
deriving DecidableEq, Repr

inductive Event where
  | start (tag : Tag)
  | endTag (tag : TagEnd)
  | text (s : String)
  | code (s : String)
  | softBreak
  | hardBreak
  | taskListMarker (checked : Bool)
  | rule
deriving DecidableEq, Repr

/-- `ListKind` from `renderer.rs`. -/
inductive ListKind where
  | unordered (depth : Nat)
  | ordered (n : Nat)
deriving DecidableEq, Repr

/-- `BULLETS` palette from `renderer.rs`. -/
def BULLETS : List String := ["• ", "◦ ", "▪ "]

/-- The `Renderer` state from `renderer.rs`. -/
structure Renderer where
  lines : List Line
  current_spans : List Span
  style_stack : List Style
  in_code_block : Bool
  code_block_lang : String
  code_block_buf : String
  list_stack : List ListKind
  blockquote_depth : Nat
  in_table : Bool
  in_table_head : Bool
  table_row_cells : List (List Span)
  current_cell_spans : List Span
  table_col_count : Nat
  table_header_rows : List (List (List Span))
  table_body_rows : List (List (List Span))
  link_url : Option String
deriving DecidableEq, Repr

/-- `Renderer::new()`. -/
def initRenderer : Renderer where
  lines := []
  current_spans := []
  style_stack := [{}]
  in_code_block := false
  code_block_lang := ""
  code_block_buf := ""
  list_stack := []
  blockquote_depth := 0
  in_table := false
  in_table_head := false
  table_row_cells := []
  current_cell_spans := []
  table_col_count := 0
  table_header_rows := []
  table_body_rows := []
  link_url := none

/-- `self.style_stack.last().unwrap_or(&Style::default())`. -/
def Renderer.current_style (s : Renderer) : Style :=
  (s.style_stack.getLast?).getD {}

/-- `flush_spans`. -/
def flush_spans (s : Renderer) : Renderer :=
  if s.current_spans.isEmpty then s
  else { s with lines := s.lines ++ [Line.mk s.current_spans], current_spans := [] }

/-- `push_blank_line`: append `Line::from("")` unless the last line is
already blank. -/
def push_blank_line (s : Renderer) : Renderer :=
  let lastBlank := match s.lines.getLast? with
    | some l => line_is_blank l
    | none => false
  if lastBlank then s else { s with lines := s.lines ++ [emptyLine] }

/-- `add_blockquote_prefix`: one `▌ ` dark-gray span per quote level. -/
def quoteMarkSpans (depth : Nat) : List Span :=
  List.replicate depth (Span.mk "▌ " { fg := some Color.darkGray })

/-- `push_modifier`. -/
def push_modifier (s : Renderer) (m : Modifier) : Renderer :=
  { s with style_stack := s.style_stack ++ [s.current_style.addModifier m] }

/-- `start_paragraph`: inside a blockquote, pre-seed the pending buffer with
the quote marks. -/
def start_paragraph (s : Renderer) : Renderer :=
  if s.blockquote_depth > 0 then
    { s with current_spans := quoteMarkSpans s.blockquote_depth }
  else s

/-- `start_heading`. -/
def start_heading (s : Renderer) (level : HeadingLevel) : Renderer :=
  let style : Style := match level with
    | .h1 => { fg := some Color.cyan, bold := true }
    | .h2 => { fg := some Color.green, bold := true }
    | _ => { fg := some Color.yellow, bold := true }
  { s with style_stack := s.style_stack ++ [style] }

/-- `start_code_block`. -/
def start_code_block (s : Renderer) (kind : CodeBlockKind) : Renderer :=
  { s with in_code_block := true, code_block_buf := "",
           code_block_lang := match kind with
             | .fenced lang => lang
             | .indented => "" }

/-- `start_list`: an ordered list carries its declared first value, an
unordered one records its 0-based nesting depth. -/
def start_list (s : Renderer) (firstItem : Option Nat) : Renderer :=
  let depth := s.list_stack.length
  match firstItem with
  | some start => { s with list_stack := s.list_stack ++ [ListKind.ordered start] }
  | none => { s with list_stack := s.list_stack ++ [ListKind.unordered depth] }

/-- `start_item`: flush the previous item, then pre-seed the pending buffer
with quote marks and the bullet/number marker; an ordered list's counter is
incremented as the marker is generated. -/
def start_item (s : Renderer) : Renderer :=
  let s := flush_spans s
  let indent := strRepeat "  " (s.list_stack.length - 1)
  match s.list_stack.getLast? with
  | some (.unordered depth) =>
      { s with current_spans := quoteMarkSpans s.blockquote_depth ++
          [Span.mk (indent ++ BULLETS.getD (depth % BULLETS.length) "") { fg := some Color.cyan }] }
  | some (.ordered n) =>
      { s with list_stack := s.list_stack.dropLast ++ [ListKind.ordered (n + 1)],
               current_spans := quoteMarkSpans s.blockquote_depth ++
          [Span.mk (indent ++ toString n ++ ". ") { fg := some Color.cyan }] }
  | none =>
      { s with current_spans := quoteMarkSpans s.blockquote_depth ++ [Span.mk "  " {}] }

/-- `start_link`. -/
def start_link (s : Renderer) (url : String) : Renderer :=
  let base := s.current_style
  { s with link_url := some url,
           style_stack := s.style_stack ++ [{ base with fg := some Color.blue, underlined := true }] }

/-- `start_image`. -/
def start_image (s : Renderer) : Renderer :=
  { s with current_spans := s.current_spans ++ [Span.mk "[img: " { fg := some Color.darkGray }] }

/-- `start_table`. -/
def start_table (s : Renderer) : Renderer :=
  { s with in_table := true, table_col_count := 0,
           table_header_rows := [], table_body_rows := [] }

/-- `start_tag` dispatch. -/
def start_tag (s : Renderer) : Tag → Renderer
  | .heading level => start_heading s level
  | .paragraph => start_paragraph s
  | .strong => push_modifier s .bold
  | .emphasis => push_modifier s .italic
  | .strikethrough => push_modifier s .crossedOut
  | .codeBlock kind => start_code_block s kind
  | .blockQuote => { s with blockquote_depth := s.blockquote_depth + 1 }
  | .list firstItem => start_list s firstItem
  | .item => start_item s
  | .link destUrl => start_link s destUrl
  | .image _ => start_image s
  | .table => start_table s
  | .tableHead => { s with in_table_head := true }
  | .tableRow => { s with table_row_cells := [] }
  | .tableCell => { s with current_cell_spans := [] }

/-! ## Table layout -/

/-- Cell content length: sum of the byte lengths of the cell's span texts
(Rust `s.content.len()`). -/
def cellContentLen (cell : List Span) : Nat :=
  (cell.map (fun sp => sp.content.utf8ByteSize)).sum

/-- One pass of the width loop over a row, tracking the column index. -/
def updateRowWidthsAux (ws : List Nat) (row : List (List Span)) (i : Nat) : List Nat :=
  match row with
  | [] => ws
  | cell :: cells =>
      updateRowWidthsAux (ws.set i (max (ws.getD i 0) (cellContentLen cell + 2))) cells (i + 1)

def updateRowWidths (ws : List Nat) (row : List (List Span)) : List Nat :=
  updateRowWidthsAux ws row 0

/-- Column widths: start every column at the floor of 3, then widen by every
row's cell content length plus 2. -/
def computeColWidths (rows : List (List (List Span))) (colCount : Nat) : List Nat :=
  rows.foldl updateRowWidths (List.replicate colCount 3)

/-- `col_count`: max cell count across all rows (`max().unwrap_or(0)`). -/
def maxCols (rows : List (List (List Span))) : Nat :=
  (rows.map List.length).foldl max 0

/-- The run of `─` fillers with `mid` junctions between columns. -/
def borderBody : List Nat → Char → List Char
  | [], _ => []
  | [w], _ => List.replicate w '─'
  | w :: ws, mid => List.replicate w '─' ++ mid :: borderBody ws mid

/-- `build_table_border`: left corner, per-column `─` runs separated by the
mid junction, right corner. -/
def build_table_border (colWidths : List Nat) (left mid right : Char) : String :=
  String.mk (left :: (borderBody colWidths mid ++ [right]))

def tableBorderStyle : Style := { fg := some Color.darkGray }

def mkBorderLine (colWidths : List Nat) (left mid right : Char) : Line :=
  Line.mk [Span.mk (build_table_border colWidths left mid right) tableBorderStyle]

def spacesStr (n : Nat) : String := String.mk (List.replicate n ' ')

/-- The per-column cell spans of `build_table_row_line` (the loop body over
`col_widths`, with the trailing `│` after every column). -/
def rowCellSpans (row : List (List Span)) : List Nat → Nat → Bool → List Span
  | [], _, _ => []
  | w :: ws, i, isHeader =>
      let cell := row.getD i []
      let contentLen := cellContentLen cell
      let padding := w - contentLen
      let leftPad := padding / 2
      let rightPad := padding - leftPad
      (if isHeader then
        [Span.mk (spacesStr leftPad ++ String.join (cell.map (fun sp => sp.content)) ++ spacesStr rightPad)
          { fg := some Color.cyan, bold := true }]
       else
        Span.mk (spacesStr leftPad) {} :: cell ++ [Span.mk (spacesStr rightPad) {}])
      ++ (Span.mk "│" tableBorderStyle :: rowCellSpans row ws (i + 1) isHeader)

/-- `build_table_row_line`. -/
def build_table_row_line (row : List (List Span)) (colWidths : List Nat) (isHeader : Bool) : Line :=
  Line.mk (Span.mk "│" tableBorderStyle :: rowCellSpans row colWidths 0 isHeader)

/-- `end_table`: drain the accumulated rows; with no rows or no columns emit
nothing, otherwise emit top border, header rows, middle border, body rows,
bottom border, and a trailing blank line. -/
def end_table (s : Renderer) : Renderer :=
  let header_rows := s.table_header_rows
  let body_rows := s.table_body_rows
  let s := { s with in_table := false, table_header_rows := [], table_body_rows := [] }
  let all_rows := header_rows ++ body_rows
  if all_rows.isEmpty then s
  else
    let col_count := maxCols all_rows
    if col_count = 0 then s
    else
      let col_widths := computeColWidths all_rows col_count
      let s := { s with
        lines := s.lines
          ++ [mkBorderLine col_widths '┌' '┬' '┐']
          ++ header_rows.map (fun row => build_table_row_line row col_widths true)
          ++ [mkBorderLine col_widths '├' '┼' '┤']
          ++ body_rows.map (fun row => build_table_row_line row col_widths false)
          ++ [mkBorderLine col_widths '└' '┴' '┘'],
        table_col_count := 0 }
      push_blank_line s

/-! ## End-tag handlers -/

/-- `end_code_block`: take the buffered code and language, trim trailing
newlines, highlight, emit the optional language label then the highlighted
body, then one blank line. -/
def end_code_block (db : HighlightDb) (s : Renderer) : Renderer :=
  let code := s.code_block_buf
  let lang := s.code_block_lang
  let s := { s with in_code_block := false, code_block_buf := "", code_block_lang := "" }
  let code := trimNewlineEnd code
  let highlighted := if lang.isEmpty then highlight_code db code "" else highlight_code db code lang
  let s := if lang.isEmpty then s
    else { s with lines := s.lines ++
      [Line.mk [Span.mk ("    " ++ lang) { fg := some Color.darkGray, bg := some codeBg }]] }
  let s := { s with lines := s.lines ++ highlighted }
  push_blank_line s

/-- `end_tag` dispatch. -/
def end_tag (db : HighlightDb) (s : Renderer) : TagEnd → Renderer
  | .heading _ => push_blank_line (flush_spans { s with style_stack := s.style_stack.dropLast })
  | .paragraph => push_blank_line (flush_spans s)
  | .strong | .emphasis | .strikethrough => { s with style_stack := s.style_stack.dropLast }
  | .codeBlock => end_code_block db s
  | .blockQuote =>
      let s := { s with blockquote_depth := s.blockquote_depth - 1 }
      if s.blockquote_depth = 0 then push_blank_line s else s
  | .list =>
      let s := { s with list_stack := s.list_stack.dropLast }
      if s.list_stack.isEmpty then push_blank_line s else s
  | .item => flush_spans s
  | .link =>
      let s := { s with style_stack := s.style_stack.dropLast }
      match s.link_url with
      | some url =>
          { s with link_url := none,
                   current_spans := s.current_spans ++
                     [Span.mk (" (" ++ url ++ ")") { fg := some Color.darkGray }] }
      | none => s
  | .image => { s with current_spans := s.current_spans ++ [Span.mk "]" { fg := some Color.darkGray }] }
  | .table => end_table s
  | .tableHead =>
      { s with table_header_rows := s.table_header_rows ++ [s.table_row_cells],
               table_row_cells := [], in_table_head := false }
  | .tableRow =>
      { s with table_body_rows := s.table_body_rows ++ [s.table_row_cells],
               table_row_cells := [] }
  | .tableCell =>
      { s with table_row_cells := s.table_row_cells ++ [s.current_cell_spans],
               current_cell_spans := [] }

/-! ## Content handlers -/

/-- `handle_text`: code-block text is buffered raw; table text goes to the
current cell (bold cyan in the header); blockquote text defaults to italic
when no other style is active. -/
def handle_text (s : Renderer) (t : String) : Renderer :=
  if s.in_code_block then
    { s with code_block_buf := s.code_block_buf ++ t }
  else if s.in_table then
    let style := if s.in_table_head then ({ fg := some Color.cyan, bold := true } : Style)
      else s.current_style
    { s with current_cell_spans := s.current_cell_spans ++ [Span.mk t style] }
  else
    let style := s.current_style
    if s.blockquote_depth > 0 then
      let bqStyle := if style = ({} : Style) then ({ italic := true } : Style) else style
      { s with current_spans := s.current_spans ++ [Span.mk t bqStyle] }
    else
      { s with current_spans := s.current_spans ++ [Span.mk t style] }

/-- `handle_inline_code`. -/
def handle_inline_code (s : Renderer) (c : String) : Renderer :=
  let sp := Span.mk ("`" ++ c ++ "`") { fg := some Color.magenta }
  if s.in_table then { s with current_cell_spans := s.current_cell_spans ++ [sp] }
  else { s with current_spans := s.current_spans ++ [sp] }

/-- `handle_task_marker`: replace the pending spans with quote marks, indent
and the checked/unchecked glyph. -/
def handle_task_marker (s : Renderer) (checked : Bool) : Renderer :=
  let marker := if checked then "  ☑ " else "  ☐ "
  let color := if checked then Color.green else Color.yellow
  let indent := strRepeat "  " (s.list_stack.length - 1)
  { s with current_spans := quoteMarkSpans s.blockquote_depth ++
      [Span.mk (indent ++ marker) { fg := some color }] }

/-- `handle_rule`: flush, emit the 40-glyph divider, then a blank line. -/
def handle_rule (s : Renderer) : Renderer :=
  let s := flush_spans s
  let s := { s with lines := s.lines ++ [Line.mk [Span.mk (strRepeat "─" 40) { fg := some Color.darkGray }]] }
  push_blank_line s

/-- `process_event`. -/
def processEvent (db : HighlightDb) (s : Renderer) : Event → Renderer
  | .start tag => start_tag s tag
  | .endTag tag => end_tag db s tag
  | .text t => handle_text s t
  | .code c => handle_inline_code s c
  | .softBreak => flush_spans s
  | .hardBreak => flush_spans s
  | .taskListMarker checked => handle_task_marker s checked
  | .rule => handle_rule s

def processEvents (db : HighlightDb) (s : Renderer) (events : List Event) : Renderer :=
  events.foldl (processEvent db) s

/-- The `while` loop removing trailing blank lines, as structural recursion:
a trailing run of blank lines is dropped. -/
def stripTrailingBlanks : List Line → List Line
  | [] => []
  | l :: rest =>
      let r := stripTrailingBlanks rest
      if r.isEmpty then (if line_is_blank l then [] else [l]) else l :: r

/-- The event-walking part of `Renderer::render`: process all events, flush,
strip trailing blanks, fall back to a single blank line. -/
def renderEvents (db : HighlightDb) (events : List Event) : List Line :=
  let s := processEvents db initRenderer events
  let s := flush_spans s
  let ls := stripTrailingBlanks s.lines
  if ls.isEmpty then [emptyLine] else ls

/-- `render`: the whitespace-only short-circuit, then the event walk over the
stream produced by the external pulldown-cmark parser (modelled as the
`parse` parameter). -/
def render (parse : String → List Event) (db : HighlightDb) (input : String) : List Line :=
  if strBlank input then [emptyLine] else renderEvents db (parse input)

/-! ## Specification-side definitions -/

/-- Whether some adjacent pair of lines is blank-blank; `true` means the
no-consecutive-blank-lines property holds. -/
def noConsecBlanks : List Line → Bool
  | [] => true
  | [_] => true
  | a :: b :: rest => (!(line_is_blank a && line_is_blank b)) && noConsecBlanks (b :: rest)

/-- Every span of the pending buffer is whitespace-only. -/
def spansAllBlank (sps : List Span) : Bool := sps.all (fun sp => strBlank sp.content)

/-- Whether a last emitted line exists and is blank. -/
def lastBlank (ls : List Line) : Bool :=
  match ls.getLast? with
  | some l => line_is_blank l
  | none => false

/-- A flush of the pending span buffer keeps blank lines non-adjacent: the
buffer is empty (nothing is emitted), or it holds a non-whitespace
character (a non-blank line is emitted), or the previously emitted line is
not blank (so even a whitespace-only line lands after a non-blank one). -/
def flushOk (s : Renderer) : Bool :=
  s.current_spans.isEmpty || !(spansAllBlank s.current_spans) || !(lastBlank s.lines)

/-- The renderer-state invariant behind blank-line collapsing: no two
consecutive emitted lines are blank. -/
def stateOk (s : Renderer) : Bool := noConsecBlanks s.lines

/-- Conditions on one event (relative to the current state) under which the
blank-line-collapsing invariant is preserved: every event that flushes the
pending buffer (soft/hard breaks, paragraph/heading/item ends, item
starts, horizontal rules) satisfies `flushOk`, and a closed code block has
an empty or non-whitespace language tag and no blank body lines after
trailing-newline trimming.  Text runs — including the whitespace-only ones
the parser emits between adjacent inline elements — are unrestricted. -/
def eventOk (s : Renderer) : Event → Bool
  | .softBreak => flushOk s
  | .hardBreak => flushOk s
  | .rule => flushOk s
  | .start .item => flushOk s
  | .endTag .paragraph => flushOk s
  | .endTag (.heading _) => flushOk s
  | .endTag .item => flushOk s
  | .endTag .codeBlock =>
      (s.code_block_lang.isEmpty || !strBlank s.code_block_lang)
        && (rustLines (trimNewlineEnd s.code_block_buf)).all (fun l => !strBlank l)
  | _ => true

/-- `eventOk` holds at every step of the walk. -/
def streamOk (db : HighlightDb) (s : Renderer) : List Event → Bool
  | [] => true
  | e :: es => eventOk s e && streamOk db (processEvent db s e) es

/-- The highlighting oracle maps a non-whitespace source line to at least one
region whose text is not whitespace-only (true of syntect, whose regions
partition the source line). -/
def dbOk (db : HighlightDb) : Prop :=
  ∀ st l, strBlank l = false →
    ∃ reg ∈ (db.highlightLine st l).2, strBlank reg.2 = false

/-- Junction-glyph count of a border string. -/
def countJunctions (s : String) (a b c : Char) : Nat :=
  (s.data.filter (fun ch => ch = a || ch = b || ch = c)).length

/-- Events of one ordered-list item holding a single text run. -/
def orderedItemEvents (texts : List String) : List Event :=
  texts.flatMap (fun t => [Event.start Tag.item, Event.text t, Event.endTag TagEnd.item])

/-- Events of a flat ordered list declared with first value `start`. -/
def orderedListEvents (start : Nat) (texts : List String) : List Event :=
  Event.start (Tag.list (some start)) :: (orderedItemEvents texts ++ [Event.endTag TagEnd.list])

/-- The expected rendered line of one ordered item: the `n. ` cyan marker
followed by the item text. -/
def orderedItemLine (n : Nat) (t : String) : Line :=
  Line.mk [Span.mk (toString n ++ ". ") { fg := some Color.cyan }, Span.mk t {}]

/-- Expected lines of a flat ordered list: markers `n`, `n+1`, ... in input
order. -/
def orderedItemLines : Nat → List String → List Line
  | _, [] => []
  | n, t :: ts => orderedItemLine n t :: orderedItemLines (n + 1) ts

/-- Events that style pushes onto the style-scope stack. -/
def isStylePush : Event → Bool
  | .start (.heading _) => true
  | .start .strong => true
  | .start .emphasis => true
  | .start .strikethrough => true
  | .start (.link _) => true
  | _ => false

/-- Events that pop the style-scope stack. -/
def isStylePop : Event → Bool
  | .endTag (.heading _) => true
  | .endTag .strong => true
  | .endTag .emphasis => true
  | .endTag .strikethrough => true
  | .endTag .link => true
  | _ => false

def pushCount (es : List Event) : Nat := es.countP isStylePush

def popCount (es : List Event) : Nat := es.countP isStylePop

/-- A concrete highlighting oracle for witnesses: resolves no language, and
(if it were consulted) returns each line as a single region. -/
def db0 : HighlightDb :=
  ⟨fun _ => none, fun n => n, fun st l => (st, [(⟨0, 0, 0⟩, l)])⟩

/-- The pulldown-cmark event stream of `"```\na\n\n\nb\n```"`: one fenced
code block whose body holds two consecutive blank lines. -/
def c1events : List Event :=
  [Event.start (Tag.codeBlock (CodeBlockKind.fenced "")),
   Event.text "a\n\n\nb\n",
   Event.endTag TagEnd.codeBlock]

/-- The event prefix of `"- a\n  - b\n- c"` up to (but excluding) the inner
list's end event. -/
def c3prefix : List Event :=
  [Event.start (Tag.list none), Event.start Tag.item, Event.text "a",
   Event.start (Tag.list none), Event.start Tag.item, Event.text "b",
   Event.endTag TagEnd.item]

/-- The renderer state sitting right before the inner list's end event. -/
def c3state : Renderer := processEvents db0 initRenderer c3prefix

/-- The pulldown-cmark event stream of `"**a** **b**\n\nc"`: a paragraph
holding a whitespace-only text run between two strong spans, then a second
paragraph. -/
def c1WitnessEvents : List Event :=
  [Event.start Tag.paragraph,
   Event.start Tag.strong, Event.text "a", Event.endTag TagEnd.strong,
   Event.text " ",
   Event.start Tag.strong, Event.text "b", Event.endTag TagEnd.strong,
   Event.endTag TagEnd.paragraph,
   Event.start Tag.paragraph, Event.text "c", Event.endTag TagEnd.paragraph]

def c4state : Renderer :=
  { initRenderer with
      table_header_rows := [[[Span.mk "Name" {}], [Span.mk "Age" {}]]],
      table_body_rows := [[[Span.mk "Alice" {}], [Span.mk "30" {}]]] }

def ordState (n : Nat) (ls : List Line) : Renderer :=
  { initRenderer with lines := ls, list_stack := [ListKind.ordered n] }

/-! ## Basic lemmas about blank lines and the pending buffer -/

theorem strBlank_append (a b : String) : strBlank (a ++ b) = (strBlank a && strBlank b) := by
  simp [strBlank, String.data_append, List.all_append]

theorem strBlank_mk (cs : List Char) : strBlank (String.mk cs) = cs.all Char.isWhitespace := rfl

theorem line_is_blank_cons_false (sp : Span) (sps : List Span) (h : strBlank sp.content = false) :
    line_is_blank (Line.mk (sp :: sps)) = false := by
  simp [line_is_blank, h]

theorem ncb_append_nonblank (ls : List Line) (l : Line)
    (h : noConsecBlanks ls = true) (hl : line_is_blank l = false) :
    noConsecBlanks (ls ++ [l]) = true := by
  induction ls with
  | nil => simp [noConsecBlanks]
  | cons a tl ih =>
    cases tl with
    | nil => simp [noConsecBlanks, hl]
    | cons b tr =>
      simp only [noConsecBlanks, Bool.and_eq_true] at h
      simp only [List.cons_append, noConsecBlanks, Bool.and_eq_true]
      exact ⟨h.1, ih h.2⟩

theorem ncb_append_blank (ls : List Line)
    (h : noConsecBlanks ls = true)
    (hlast : ∀ x, ls.getLast? = some x → line_is_blank x = false) :
    noConsecBlanks (ls ++ [emptyLine]) = true := by
  induction ls with
  | nil => simp [noConsecBlanks]
  | cons a tl ih =>
    cases tl with
    | nil =>
      have := hlast a rfl
      simp [noConsecBlanks, this]
    | cons b tr =>
      simp only [noConsecBlanks, Bool.and_eq_true] at h
      simp only [List.cons_append, noConsecBlanks, Bool.and_eq_true]
      refine ⟨h.1, ih h.2 ?_⟩
      intro x hx
      exact hlast x (by simpa [List.getLast?_cons_cons] using hx)

theorem push_blank_preserves (s : Renderer) (h : noConsecBlanks s.lines = true) :
    noConsecBlanks (push_blank_line s).lines = true := by
  unfold push_blank_line
  cases hg : s.lines.getLast? with
  | none =>
    have : s.lines = [] := by simpa using hg
    simp [this, noConsecBlanks]
  | some l =>
    by_cases hb : line_is_blank l = true
    · simp [hg, hb, h]
    · simp only [hg, Bool.not_eq_true] at hb
      simp only [hg, hb]
      simp only [Bool.false_eq_true, if_false]
      exact ncb_append_blank s.lines h (fun x hx => by rw [hg] at hx; injection hx with hx; rw [← hx]; exact hb)

theorem ncb_append_all (ls more : List Line)
    (h : noConsecBlanks ls = true)
    (hall : ∀ l ∈ more, line_is_blank l = false) :
    noConsecBlanks (ls ++ more) = true := by
  induction more generalizing ls with
  | nil => simpa using h
  | cons m ms ih =>
    have h1 : noConsecBlanks (ls ++ [m]) = true :=
      ncb_append_nonblank ls m h (hall m (by simp))
    have := ih (ls ++ [m]) h1 (fun l hl => hall l (by simp [hl]))
    simpa using this

theorem lastBlank_false_append (ls : List Line) (l : Line)
    (h : noConsecBlanks ls = true) (hl : lastBlank ls = false) :
    noConsecBlanks (ls ++ [l]) = true := by
  induction ls with
  | nil => simp [noConsecBlanks]
  | cons a tl ih =>
    cases tl with
    | nil =>
      have ha : line_is_blank a = false := by simpa [lastBlank] using hl
      simp [noConsecBlanks, ha]
    | cons b tr =>
      simp only [noConsecBlanks, Bool.and_eq_true] at h
      simp only [List.cons_append, noConsecBlanks, Bool.and_eq_true]
      refine ⟨h.1, ih h.2 ?_⟩
      unfold lastBlank at hl ⊢
      rwa [List.getLast?_cons_cons] at hl

theorem line_is_blank_mk_of_all (sps : List Span) (h : spansAllBlank sps = true) :
    line_is_blank (Line.mk sps) = true := by
  simp only [line_is_blank, spansAllBlank] at h ⊢
  simp [h]

theorem line_is_blank_mk_of_not_all (sps : List Span)
    (hne : sps.isEmpty = false) (h : spansAllBlank sps = false) :
    line_is_blank (Line.mk sps) = false := by
  simp only [line_is_blank, spansAllBlank] at h ⊢
  simp [h, hne]

theorem flush_lines_of_nonempty (s : Renderer) (h : s.current_spans.isEmpty = false) :
    (flush_spans s).lines = s.lines ++ [Line.mk s.current_spans] := by
  unfold flush_spans
  simp [h]

theorem flush_spans_of_empty (s : Renderer) (h : s.current_spans = []) : flush_spans s = s := by
  unfold flush_spans
  rw [h]
  rfl

theorem strip_append_blank (ls : List Line) (b : Line) (hb : line_is_blank b = true) :
    stripTrailingBlanks (ls ++ [b]) = stripTrailingBlanks ls := by
  induction ls with
  | nil => simp [stripTrailingBlanks, hb]
  | cons a tl ih =>
    show stripTrailingBlanks (a :: (tl ++ [b])) = stripTrailingBlanks (a :: tl)
    unfold stripTrailingBlanks
    rw [ih]

theorem flush_lines_pres (s : Renderer)
    (h : noConsecBlanks s.lines = true) (hf : flushOk s = true) :
    noConsecBlanks (flush_spans s).lines = true := by
  unfold flush_spans
  by_cases he : s.current_spans.isEmpty = true
  · simp [he, h]
  · have he2 : s.current_spans.isEmpty = false := by simpa using he
    simp only [he2, Bool.false_eq_true, if_false]
    rw [flushOk, he2] at hf
    simp only [Bool.false_or, Bool.or_eq_true, Bool.not_eq_true'] at hf
    rcases hf with hf | hf
    · exact ncb_append_nonblank _ _ h (line_is_blank_mk_of_not_all _ he2 hf)
    · exact lastBlank_false_append _ _ h hf

theorem flush_current (s : Renderer) : (flush_spans s).current_spans = [] := by
  unfold flush_spans
  by_cases he : s.current_spans.isEmpty
  · simpa [he] using (by simpa using he : s.current_spans = [])
  · simp [he]

theorem strip_is_prefix_part (ls : List Line) : ∃ rest, stripTrailingBlanks ls ++ rest = ls := by
  induction ls with
  | nil => exact ⟨[], rfl⟩
  | cons l tl ih =>
    obtain ⟨rest0, h0⟩ := ih
    unfold stripTrailingBlanks
    by_cases he : (stripTrailingBlanks tl).isEmpty
    · by_cases hb : line_is_blank l = true
      · exact ⟨l :: tl, by simp [he, hb]⟩
      · refine ⟨tl, ?_⟩
        simp [he, hb]
    · refine ⟨rest0, ?_⟩
      simp only [he]
      simp only [Bool.false_eq_true, if_false, List.cons_append]
      rw [h0]

theorem ncb_of_append (t rest : List Line) (h : noConsecBlanks (t ++ rest) = true) :
    noConsecBlanks t = true := by
  induction t with
  | nil => simp [noConsecBlanks]
  | cons a tl ih =>
    cases tl with
    | nil => simp [noConsecBlanks]
    | cons b tr =>
      simp only [List.cons_append, noConsecBlanks, Bool.and_eq_true] at h
      simp only [noConsecBlanks, Bool.and_eq_true]
      exact ⟨h.1, ih (by simpa using h.2)⟩

theorem bullet_nonblank (d : Nat) :
    strBlank (BULLETS.getD (d % BULLETS.length) "") = false := by
  have h3 : d % 3 = 0 ∨ d % 3 = 1 ∨ d % 3 = 2 := by omega
  rcases h3 with h | h | h <;> simp [BULLETS, h] <;> decide

/-! ## Lemmas about highlighted lines, borders, and blank pushing -/

theorem plain_nonblank (code : String)
    (h : (rustLines code).all (fun l => !strBlank l) = true) :
    ∀ line ∈ plain_code_lines code, line_is_blank line = false := by
  intro line hline
  simp only [plain_code_lines, List.mem_map] at hline
  obtain ⟨lt, hmem, rfl⟩ := hline
  have hl : strBlank lt = false := by
    have := List.all_eq_true.mp h lt hmem
    simpa using this
  apply line_is_blank_cons_false
  show strBlank ("    " ++ lt) = false
  rw [show ("    " ++ lt) = (("    " : String) ++ lt) from rfl, strBlank_append]
  simp [hl]

theorem hlLines_nonblank (db : HighlightDb) (hdb : dbOk db) :
    ∀ (ls : List String) (st : Nat), (∀ l ∈ ls, strBlank l = false) →
      ∀ line ∈ hlLines db st ls, line_is_blank line = false := by
  intro ls
  induction ls with
  | nil => intro st _ line hline; simp [hlLines] at hline
  | cons l rest ih =>
    intro st hall line hline
    simp only [hlLines, List.mem_cons] at hline
    rcases hline with rfl | hline
    · obtain ⟨reg, hregmem, hreg⟩ := hdb st l (hall l (by simp))
      simp only [line_is_blank, List.isEmpty_cons, Bool.false_or, List.all_cons]
      rw [Bool.eq_false_iff]
      intro hcontra
      rw [Bool.and_eq_true] at hcontra
      have := List.all_eq_true.mp hcontra.2 _ (List.mem_map_of_mem _ hregmem)
      simp only at this
      rw [hreg] at this
      exact Bool.false_ne_true this
    · exact ih _ (fun x hx => hall x (by simp [hx])) line hline

theorem hlLines_length (db : HighlightDb) :
    ∀ (ls : List String) (st : Nat), (hlLines db st ls).length = ls.length := by
  intro ls
  induction ls with
  | nil => intro st; simp [hlLines]
  | cons l rest ih => intro st; simp [hlLines, ih]

theorem border_nonblank (ws : List Nat) (l m r : Char) (h : l.isWhitespace = false) :
    line_is_blank (mkBorderLine ws l m r) = false := by
  apply line_is_blank_cons_false
  show strBlank (build_table_border ws l m r) = false
  rw [build_table_border, strBlank_mk]
  simp [h]

theorem rowline_nonblank (row : List (List Span)) (ws : List Nat) (ih : Bool) :
    line_is_blank (build_table_row_line row ws ih) = false := by
  apply line_is_blank_cons_false
  decide

theorem push_blank_lines_eq (s1 s2 : Renderer) (h : s1.lines = s2.lines) :
    (push_blank_line s1).lines = (push_blank_line s2).lines := by
  unfold push_blank_line
  rw [h]
  by_cases hc : (match s2.lines.getLast? with | some l => line_is_blank l | none => false) = true
  · simp [hc, h]
  · simp only [Bool.not_eq_true] at hc
    simp [hc, h]

theorem flush_lines_eq (s1 s2 : Renderer) (h : s1.lines = s2.lines)
    (h2 : s1.current_spans = s2.current_spans) :
    (flush_spans s1).lines = (flush_spans s2).lines := by
  unfold flush_spans
  rw [h, h2]
  by_cases hc : s2.current_spans.isEmpty
  · simp [hc, h]
  · simp [hc, h]

theorem push_blank_last (s : Renderer) :
    line_is_blank ((push_blank_line s).lines.getLastD emptyLine) = true := by
  unfold push_blank_line
  cases hg : s.lines.getLast? with
  | none =>
    have hl : s.lines = [] := by simpa using hg
    simp only [hg, Bool.false_eq_true, if_false, hl]
    show line_is_blank (([] ++ [emptyLine]).getLastD emptyLine) = true
    decide
  | some l =>
    by_cases hb : line_is_blank l = true
    · simp only [hg, hb, if_true]
      rw [List.getLastD_eq_getLast?, hg]
      simpa using hb
    · simp only [hg, Bool.not_eq_true] at hb
      simp only [hg, hb, Bool.false_eq_true, if_false]
      rw [List.getLastD_eq_getLast?, List.getLast?_concat]
      decide

/-! ## Preservation of the blank-line invariant -/

theorem stateOk_same (s s2 : Renderer) (hs : stateOk s = true) (h : s2.lines = s.lines) :
    stateOk s2 = true := by
  unfold stateOk at hs ⊢
  rw [h]
  exact hs

theorem flush_stateOk (s : Renderer) (hs : stateOk s = true) (hf : flushOk s = true) :
    stateOk (flush_spans s) = true :=
  flush_lines_pres s hs hf

theorem push_blank_current (s : Renderer) :
    (push_blank_line s).current_spans = s.current_spans := by
  unfold push_blank_line
  by_cases h : (match s.lines.getLast? with | some l => line_is_blank l | none => false) = true
  · simp [h]
  · simp only [Bool.not_eq_true] at h
    simp [h]

theorem push_blank_stateOk (s : Renderer) (hs : stateOk s = true) :
    stateOk (push_blank_line s) = true :=
  push_blank_preserves s hs

theorem highlight_code_nonblank (db : HighlightDb) (hdb : dbOk db) (code lang : String)
    (h : (rustLines code).all (fun l => !strBlank l) = true) :
    ∀ line ∈ highlight_code db code lang, line_is_blank line = false := by
  intro line hline
  unfold highlight_code at hline
  cases hc : db.lookupLang lang with
  | none =>
    rw [hc] at hline
    exact plain_nonblank code h line hline
  | some syn =>
    rw [hc] at hline
    refine hlLines_nonblank db hdb (rustLines code) (db.initState syn) ?_ line hline
    intro l hl
    have := List.all_eq_true.mp h l hl
    simpa using this

theorem flush_spans_list_stack (s : Renderer) : (flush_spans s).list_stack = s.list_stack := by
  unfold flush_spans
  by_cases h : s.current_spans.isEmpty = true <;> simp [h]

theorem flush_spans_blockquote_depth (s : Renderer) :
    (flush_spans s).blockquote_depth = s.blockquote_depth := by
  unfold flush_spans
  by_cases h : s.current_spans.isEmpty = true <;> simp [h]

theorem stateOk_step (db : HighlightDb) (hdb : dbOk db) (s : Renderer) (e : Event)
    (he : eventOk s e = true) (hs : stateOk s = true) :
    stateOk (processEvent db s e) = true := by
  cases e with
  | start tag =>
    cases tag with
    | heading level =>
      simp only [processEvent, start_tag]
      exact stateOk_same s _ hs rfl
    | paragraph =>
      simp only [processEvent, start_tag, start_paragraph]
      by_cases hd : s.blockquote_depth > 0
      · rw [if_pos hd]
        exact stateOk_same s _ hs rfl
      · rw [if_neg hd]
        exact hs
    | strong =>
      simp only [processEvent, start_tag]
      exact stateOk_same s _ hs rfl
    | emphasis =>
      simp only [processEvent, start_tag]
      exact stateOk_same s _ hs rfl
    | strikethrough =>
      simp only [processEvent, start_tag]
      exact stateOk_same s _ hs rfl
    | codeBlock kind =>
      simp only [processEvent, start_tag, start_code_block]
      exact stateOk_same s _ hs rfl
    | blockQuote =>
      simp only [processEvent, start_tag]
      exact stateOk_same s _ hs rfl
    | list firstItem =>
      cases firstItem with
      | some n =>
        simp only [processEvent, start_tag, start_list]
        exact stateOk_same s _ hs rfl
      | none =>
        simp only [processEvent, start_tag, start_list]
        exact stateOk_same s _ hs rfl
    | item =>
      have hf : flushOk s = true := by simpa [eventOk] using he
      simp only [processEvent, start_tag, start_item]
      have hfs := flush_stateOk s hs hf
      cases hk : (flush_spans s).list_stack.getLast? with
      | none =>
        simp only [hk]
        exact stateOk_same (flush_spans s) _ hfs rfl
      | some k =>
        cases k with
        | unordered d =>
          simp only [hk]
          exact stateOk_same (flush_spans s) _ hfs rfl
        | ordered n =>
          simp only [hk]
          exact stateOk_same (flush_spans s) _ hfs rfl
    | link destUrl =>
      simp only [processEvent, start_tag, start_link]
      exact stateOk_same s _ hs rfl
    | image destUrl =>
      simp only [processEvent, start_tag, start_image]
      exact stateOk_same s _ hs rfl
    | table =>
      simp only [processEvent, start_tag, start_table]
      exact stateOk_same s _ hs rfl
    | tableHead =>
      simp only [processEvent, start_tag]
      exact stateOk_same s _ hs rfl
    | tableRow =>
      simp only [processEvent, start_tag]
      exact stateOk_same s _ hs rfl
    | tableCell =>
      simp only [processEvent, start_tag]
      exact stateOk_same s _ hs rfl
  | endTag tag =>
    cases tag with
    | heading level =>
      have hf : flushOk s = true := by simpa [eventOk] using he
      simp only [processEvent, end_tag]
      refine push_blank_stateOk _ (flush_stateOk _ (stateOk_same s _ hs rfl) ?_)
      exact hf
    | paragraph =>
      have hf : flushOk s = true := by simpa [eventOk] using he
      simp only [processEvent, end_tag]
      exact push_blank_stateOk _ (flush_stateOk s hs hf)
    | strong =>
      simp only [processEvent, end_tag]
      exact stateOk_same s _ hs rfl
    | emphasis =>
      simp only [processEvent, end_tag]
      exact stateOk_same s _ hs rfl
    | strikethrough =>
      simp only [processEvent, end_tag]
      exact stateOk_same s _ hs rfl
    | codeBlock =>
      simp only [processEvent, end_tag, end_code_block]
      have hLB : (s.code_block_lang.isEmpty || !strBlank s.code_block_lang) = true ∧
          (rustLines (trimNewlineEnd s.code_block_buf)).all (fun l => !strBlank l) = true := by
        rw [eventOk] at he
        simpa [Bool.and_eq_true] using he
      obtain ⟨hL, hB⟩ := hLB
      by_cases hLE : s.code_block_lang.isEmpty = true
      · simp only [hLE, if_true]
        apply push_blank_stateOk
        exact ncb_append_all _ _ hs (highlight_code_nonblank db hdb _ "" hB)
      · have hLE2 : s.code_block_lang.isEmpty = false := by simpa using hLE
        simp only [hLE2, Bool.false_eq_true, if_false]
        apply push_blank_stateOk
        have hlang : strBlank s.code_block_lang = false := by
          rw [hLE2] at hL
          simpa using hL
        refine ncb_append_all _ _ ?_ (highlight_code_nonblank db hdb _ _ hB)
        refine ncb_append_nonblank _ _ hs ?_
        apply line_is_blank_cons_false
        show strBlank ("    " ++ s.code_block_lang) = false
        rw [strBlank_append, hlang, Bool.and_false]
    | blockQuote =>
      simp only [processEvent, end_tag]
      by_cases hd : s.blockquote_depth - 1 = 0
      · rw [if_pos hd]
        exact push_blank_stateOk _ (stateOk_same s _ hs rfl)
      · rw [if_neg hd]
        exact stateOk_same s _ hs rfl
    | list =>
      simp only [processEvent, end_tag]
      by_cases hd : s.list_stack.dropLast.isEmpty = true
      · rw [if_pos hd]
        exact push_blank_stateOk _ (stateOk_same s _ hs rfl)
      · rw [if_neg hd]
        exact stateOk_same s _ hs rfl
    | item =>
      have hf : flushOk s = true := by simpa [eventOk] using he
      simp only [processEvent, end_tag]
      exact flush_stateOk s hs hf
    | link =>
      simp only [processEvent, end_tag]
      cases hu : s.link_url with
      | none =>
        simp only [hu]
        exact stateOk_same s _ hs rfl
      | some url =>
        simp only [hu]
        exact stateOk_same s _ hs rfl
    | image =>
      simp only [processEvent, end_tag]
      exact stateOk_same s _ hs rfl
    | table =>
      simp only [processEvent, end_tag, end_table]
      by_cases hE : (s.table_header_rows ++ s.table_body_rows).isEmpty = true
      · rw [if_pos hE]
        exact stateOk_same s _ hs rfl
      · rw [if_neg hE]
        by_cases hC : maxCols (s.table_header_rows ++ s.table_body_rows) = 0
        · rw [if_pos hC]
          exact stateOk_same s _ hs rfl
        · rw [if_neg hC]
          apply push_blank_stateOk
          unfold stateOk
          simp only [List.append_assoc]
          apply ncb_append_all _ _ hs
          intro l hl
          simp only [List.mem_append, List.mem_cons, List.not_mem_nil, or_false,
            List.mem_map, List.mem_singleton] at hl
          rcases hl with rfl | ⟨row, _, rfl⟩ | rfl | ⟨row, _, rfl⟩ | rfl
          · exact border_nonblank _ _ _ _ (by decide)
          · exact rowline_nonblank _ _ _
          · exact border_nonblank _ _ _ _ (by decide)
          · exact rowline_nonblank _ _ _
          · exact border_nonblank _ _ _ _ (by decide)
    | tableHead =>
      simp only [processEvent, end_tag]
      exact stateOk_same s _ hs rfl
    | tableRow =>
      simp only [processEvent, end_tag]
      exact stateOk_same s _ hs rfl
    | tableCell =>
      simp only [processEvent, end_tag]
      exact stateOk_same s _ hs rfl
  | text t =>
    simp only [processEvent, handle_text]
    by_cases hcb : s.in_code_block = true
    · rw [if_pos hcb]
      exact stateOk_same s _ hs rfl
    · by_cases htb : s.in_table = true
      · rw [if_neg hcb, if_pos htb]
        exact stateOk_same s _ hs rfl
      · rw [if_neg hcb, if_neg htb]
        by_cases hd : s.blockquote_depth > 0
        · rw [if_pos hd]
          exact stateOk_same s _ hs rfl
        · rw [if_neg hd]
          exact stateOk_same s _ hs rfl
  | code c =>
    simp only [processEvent, handle_inline_code]
    by_cases htb : s.in_table = true
    · rw [if_pos htb]
      exact stateOk_same s _ hs rfl
    · rw [if_neg htb]
      exact stateOk_same s _ hs rfl
  | softBreak =>
    have hf : flushOk s = true := by simpa [eventOk] using he
    simp only [processEvent]
    exact flush_stateOk s hs hf
  | hardBreak =>
    have hf : flushOk s = true := by simpa [eventOk] using he
    simp only [processEvent]
    exact flush_stateOk s hs hf
  | taskListMarker checked =>
    simp only [processEvent, handle_task_marker]
    exact stateOk_same s _ hs rfl
  | rule =>
    have hf : flushOk s = true := by simpa [eventOk] using he
    simp only [processEvent, handle_rule]
    apply push_blank_stateOk
    have h1 : stateOk (flush_spans s) = true := flush_stateOk s hs hf
    exact ncb_append_nonblank _ _ h1 (by decide)

/-! ## C1 and C3: blank-line discipline -/

theorem stateOk_run (db : HighlightDb) (hdb : dbOk db) :
    ∀ (es : List Event) (s : Renderer), stateOk s = true → streamOk db s es = true →
      stateOk (processEvents db s es) = true := by
  intro es
  induction es with
  | nil =>
    intro s hs _
    simpa [processEvents] using hs
  | cons e rest ih =>
    intro s hs hok
    rw [streamOk, Bool.and_eq_true] at hok
    have h1 := stateOk_step db hdb s e hok.1 hs
    have h2 := ih (processEvent db s e) h1 hok.2
    simpa [processEvents] using h2

/-- C1 counterexample: the markdown input "```\na\n\n\nb\n```" parses to a
single fenced code block whose body contains two consecutive blank lines;
the plain-highlight fallback renders them as two consecutive
whitespace-only (blank) output lines, refuting the claim that no render
output ever contains two consecutive blank lines. -/
theorem c1_counterexample :
    noConsecBlanks (render (fun _ => c1events) db0 "```\na\n\n\nb\n```") = false := by
  decide

/-- C1 (amended): no two consecutive lines of the render output are blank,
provided that (a) every close of a code block happens with a language tag
that is empty or not whitespace-only and a trimmed body without blank
lines, (b) every event that flushes the pending span buffer (soft/hard
breaks, paragraph/heading/item ends, item starts, horizontal rules)
satisfies `flushOk`: the buffer is empty, holds a non-whitespace
character, or the previously emitted line is not blank, and (c) the
highlighting oracle maps non-blank source lines to at least one non-blank
region.  Whitespace-only text runs between inline elements (which the
parser routinely emits) are unrestricted; blank code-block body lines (the
counterexample) are exactly what proviso (a) excludes. -/
theorem c1_no_consecutive_blanks (parse : String → List Event) (db : HighlightDb)
    (input : String) (hdb : dbOk db)
    (hok : streamOk db initRenderer (parse input) = true) :
    noConsecBlanks (render parse db input) = true := by
  unfold render
  by_cases hb : strBlank input = true
  · rw [if_pos hb]
    decide
  · rw [if_neg hb]
    unfold renderEvents
    have hl : noConsecBlanks (processEvents db initRenderer (parse input)).lines = true :=
      stateOk_run db hdb (parse input) initRenderer (by decide) hok
    have hstrip : noConsecBlanks
        (stripTrailingBlanks (flush_spans (processEvents db initRenderer (parse input))).lines) = true := by
      by_cases he : (processEvents db initRenderer (parse input)).current_spans.isEmpty = true
      · rw [flush_spans_of_empty _ (List.isEmpty_iff.mp he)]
        obtain ⟨rest, hres⟩ :=
          strip_is_prefix_part (stripTrailingBlanks (processEvents db initRenderer (parse input)).lines)
        obtain ⟨rest2, hres2⟩ :=
          strip_is_prefix_part (processEvents db initRenderer (parse input)).lines
        exact ncb_of_append _ rest2 (by rw [hres2]; exact hl)
      · have he2 : (processEvents db initRenderer (parse input)).current_spans.isEmpty = false := by
          simpa using he
        rw [flush_lines_of_nonempty _ he2]
        by_cases hsb : spansAllBlank (processEvents db initRenderer (parse input)).current_spans = true
        · rw [strip_append_blank _ _ (line_is_blank_mk_of_all _ hsb)]
          obtain ⟨rest, hres⟩ :=
            strip_is_prefix_part (processEvents db initRenderer (parse input)).lines
          exact ncb_of_append _ rest (by rw [hres]; exact hl)
        · have hsb2 : spansAllBlank (processEvents db initRenderer (parse input)).current_spans = false := by
            simpa using hsb
          have happ : noConsecBlanks ((processEvents db initRenderer (parse input)).lines ++
              [Line.mk (processEvents db initRenderer (parse input)).current_spans]) = true :=
            ncb_append_nonblank _ _ hl (line_is_blank_mk_of_not_all _ he2 hsb2)
          obtain ⟨rest, hres⟩ :=
            strip_is_prefix_part ((processEvents db initRenderer (parse input)).lines ++
              [Line.mk (processEvents db initRenderer (parse input)).current_spans])
          exact ncb_of_append _ rest (by rw [hres]; exact happ)
    by_cases hse : (stripTrailingBlanks
        (flush_spans (processEvents db initRenderer (parse input))).lines).isEmpty = true
    · rw [if_pos hse]
      decide
    · rw [if_neg hse]
      exact hstrip

/-- Witness for C1 (amended): the stream of `"**a** **b**\n\nc"`, whose
first paragraph contains a whitespace-only text run between two strong
spans, satisfies the proviso and renders without consecutive blanks. -/
theorem c1_no_consecutive_blanks_witness :
    noConsecBlanks (render (fun _ => c1WitnessEvents) db0 "**a** **b**\n\nc") = true := by
  refine c1_no_consecutive_blanks (fun _ => c1WitnessEvents) db0 "**a** **b**\n\nc" ?_ (by decide)
  intro st l h
  exact ⟨(⟨0, 0, 0⟩, l), by simp [db0], h⟩

/-- C3 counterexample: in the state reached after processing the events of
"- a\n  - b\n- c" up to the inner list's end, the inner `End(List)` event
leaves the output lines unchanged — no blank line is emitted even though
the preceding emitted line is not blank, and the claimed flush-then-blank
behavior would have appended one. -/
theorem c3_counterexample :
    (processEvent db0 c3state (Event.endTag TagEnd.list)).lines = c3state.lines
    ∧ line_is_blank (c3state.lines.getLastD emptyLine) = false
    ∧ (push_blank_line (flush_spans c3state)).lines ≠ c3state.lines := by
  refine ⟨by decide, by decide, by decide⟩

/-- C3 (amended): heading and paragraph ends flush the pending spans and
emit one blank line unless the previous line is already blank; a list end
emits that blank (without flushing) only when the outermost list closes,
and a blockquote end only when the quote depth returns to zero; code-block
and table ends (the latter when the table has rows and columns) leave a
blank last line under the same no-double-blank rule. -/
theorem c3_block_end_blank_discipline (db : HighlightDb) (s : Renderer) (level : HeadingLevel) :
    (processEvent db s (Event.endTag (TagEnd.heading level))).lines = (push_blank_line (flush_spans s)).lines
    ∧ (processEvent db s (Event.endTag TagEnd.paragraph)).lines = (push_blank_line (flush_spans s)).lines
    ∧ (processEvent db s (Event.endTag TagEnd.list)).lines =
        (if s.list_stack.length ≤ 1 then (push_blank_line s).lines else s.lines)
    ∧ (processEvent db s (Event.endTag TagEnd.blockQuote)).lines =
        (if s.blockquote_depth ≤ 1 then (push_blank_line s).lines else s.lines)
    ∧ line_is_blank ((processEvent db s (Event.endTag TagEnd.codeBlock)).lines.getLastD emptyLine) = true
    ∧ ((s.table_header_rows ++ s.table_body_rows).isEmpty = false →
        maxCols (s.table_header_rows ++ s.table_body_rows) ≠ 0 →
        line_is_blank ((processEvent db s (Event.endTag TagEnd.table)).lines.getLastD emptyLine) = true) := by
  refine ⟨?_, rfl, ?_, ?_, ?_, ?_⟩
  · simp only [processEvent, end_tag]
    exact push_blank_lines_eq _ _ (flush_lines_eq _ _ rfl rfl)
  · simp only [processEvent, end_tag]
    by_cases hd : s.list_stack.dropLast.isEmpty = true
    · rw [if_pos hd]
      have hlen : s.list_stack.length ≤ 1 := by
        have := List.isEmpty_iff.mp hd
        have h2 : s.list_stack.length - 1 = 0 := by
          simpa [List.length_dropLast] using congrArg List.length this
        omega
      rw [if_pos hlen]
      exact push_blank_lines_eq _ _ rfl
    · rw [if_neg hd]
      have hlen : ¬(s.list_stack.length ≤ 1) := by
        intro hcon
        apply hd
        rw [List.isEmpty_iff]
        have : s.list_stack.dropLast.length = 0 := by
          simp [List.length_dropLast]
          omega
        exact List.eq_nil_of_length_eq_zero this
      rw [if_neg hlen]
  · simp only [processEvent, end_tag]
    by_cases hd : s.blockquote_depth - 1 = 0
    · rw [if_pos hd]
      have hlen : s.blockquote_depth ≤ 1 := by omega
      rw [if_pos hlen]
      exact push_blank_lines_eq _ _ rfl
    · rw [if_neg hd]
      have hlen : ¬(s.blockquote_depth ≤ 1) := by omega
      rw [if_neg hlen]
  · simp only [processEvent, end_tag, end_code_block]
    exact push_blank_last _
  · intro hE hC
    simp only [processEvent, end_tag, end_table]
    simp only [hE, Bool.false_eq_true, if_false]
    rw [if_neg hC]
    exact push_blank_last _

/-- Witness for C3 (amended): the table clause applied at a concrete state
holding one header row and one body row. -/
theorem c3_block_end_blank_discipline_witness :
    line_is_blank ((processEvent db0 c4state (Event.endTag TagEnd.table)).lines.getLastD emptyLine) = true :=
  (c3_block_end_blank_discipline db0 c4state HeadingLevel.h1).2.2.2.2.2 (by decide) (by decide)

/-! ## C2, C6, C10 -/

/-- C2: for every input that is empty or whitespace-only, `render` returns
exactly one line, and that line is blank (the short-circuit before the
event walk). -/
theorem c2_blank_input (parse : String → List Event) (db : HighlightDb)
    (input : String) (h : strBlank input = true) :
    render parse db input = [emptyLine]
    ∧ (render parse db input).length = 1
    ∧ line_is_blank emptyLine = true := by
  unfold render
  rw [if_pos h]
  exact ⟨rfl, rfl, by decide⟩

/-- Witness for C2 at the concrete whitespace-only input `"   \n "`. -/
theorem c2_blank_input_witness :
    render (fun _ => []) db0 "   \n " = [emptyLine]
    ∧ (render (fun _ => []) db0 "   \n ").length = 1
    ∧ line_is_blank emptyLine = true :=
  c2_blank_input (fun _ => []) db0 "   \n " (by decide)

/-- C6: starting an unordered list at nesting depth `d` (the current list
stack length) and then starting an item seeds the pending buffer with a
marker span whose bullet is `BULLETS[d mod 3]`; the palette has size 3,
indexing cycles with period 3, and depth 0 gets the first glyph `• `. -/
theorem c6_bullet_by_depth (db : HighlightDb) (s : Renderer) :
    (processEvent db (processEvent db s (Event.start (Tag.list none)))
        (Event.start Tag.item)).current_spans.getLast? =
      some (Span.mk (strRepeat "  " s.list_stack.length ++
          BULLETS.getD (s.list_stack.length % BULLETS.length) "")
        { fg := some Color.cyan })
    ∧ BULLETS.length = 3
    ∧ (∀ j : Nat, BULLETS.getD ((j + BULLETS.length) % BULLETS.length) "" =
        BULLETS.getD (j % BULLETS.length) "")
    ∧ BULLETS.getD (0 % BULLETS.length) "" = "• " := by
  refine ⟨?_, by decide, ?_, by decide⟩
  · simp only [processEvent, start_tag, start_list, start_item]
    rw [flush_spans_list_stack]
    simp only [List.getLast?_concat, List.length_append, List.length_singleton,
      Nat.add_sub_cancel, List.getLast?_concat]
  · intro j
    have hlen : BULLETS.length = 3 := by decide
    rw [hlen, Nat.add_mod_right]

/-- C10: a horizontal-rule event flushes the pending spans, appends a
divider line holding a single dark-gray span of exactly 40 `─` glyphs (a
fixed constant independent of any width), and then one blank line; the
pending buffer is left empty. -/
theorem c10_rule_divider (db : HighlightDb) (s : Renderer) :
    (processEvent db s Event.rule).lines =
      (flush_spans s).lines ++
        [Line.mk [Span.mk (strRepeat "─" 40) { fg := some Color.darkGray }], emptyLine]
    ∧ (strRepeat "─" 40).length = 40
    ∧ (strRepeat "─" 40).data.all (fun c => c = '─') = true
    ∧ (processEvent db s Event.rule).current_spans = [] := by
  refine ⟨?_, by decide, by decide, ?_⟩
  · simp only [processEvent, handle_rule]
    unfold push_blank_line
    simp only [List.getLast?_concat]
    have hrb : line_is_blank (Line.mk [Span.mk (strRepeat "─" 40) { fg := some Color.darkGray }]) = false := by
      decide
    simp only [hrb, Bool.false_eq_true, if_false, List.append_assoc, List.cons_append,
      List.nil_append]
  · simp only [processEvent, handle_rule]
    rw [push_blank_current]
    exact flush_current s

/-! ## C7 and C9 -/

/-- C7: the highlight call is total and branch-exact.  When the language tag
does not resolve, the result is exactly the plain fallback: the code text
verbatim behind the fixed 4-space indent, one output line per input line,
in a single dim gray span on the dark background.  When it resolves, the
result has one line per input line, each starting with the indent span on
the dark background and continuing with per-region spans, every one of
which carries an RGB token color and the dark background. -/
theorem c7_highlight_contract (db : HighlightDb) (code language : String) :
    (match db.lookupLang language with
     | none =>
        highlight_code db code language =
          (rustLines code).map (fun lineText =>
            Line.mk [Span.mk ("    " ++ lineText) { fg := some Color.gray, bg := some codeBg }])
     | some syn =>
        highlight_code db code language = highlight_with_syntect db code syn
        ∧ (highlight_code db code language).length = (rustLines code).length
        ∧ ∀ l ∈ highlight_code db code language,
            l.spans.head? = some (Span.mk "    " { bg := some codeBg })
            ∧ ∀ sp ∈ l.spans.tail, sp.style.bg = some codeBg
                ∧ ∃ r g b : Nat, sp.style.fg = some (Color.rgb r g b)) := by
  cases hc : db.lookupLang language with
  | none =>
    simp only
    unfold highlight_code
    rw [hc]
    rfl
  | some syn =>
    simp only
    have heq : highlight_code db code language = highlight_with_syntect db code syn := by
      unfold highlight_code
      rw [hc]
    refine ⟨heq, ?_, ?_⟩
    · rw [heq]
      exact hlLines_length db (rustLines code) (db.initState syn)
    · rw [heq]
      unfold highlight_with_syntect
      generalize (rustLines code) = ls
      generalize (db.initState syn) = st
      induction ls generalizing st with
      | nil => intro l hl; simp [hlLines] at hl
      | cons x xs ih =>
        intro l hl
        simp only [hlLines, List.mem_cons] at hl
        rcases hl with rfl | hl
        · refine ⟨rfl, ?_⟩
          intro sp hsp
          simp only [List.tail_cons, List.mem_map] at hsp
          obtain ⟨reg, _, rfl⟩ := hsp
          exact ⟨rfl, reg.1.r, reg.1.g, reg.1.b, rfl⟩
        · exact ih _ l hl

/-- Witness for C7: at a concrete unresolved language the fallback equation
holds (the implications hidden under the binders are discharged by
computation through the theorem). -/
theorem c7_highlight_contract_witness :
    highlight_code db0 "x\n\ny" "nosuchlang" =
      (rustLines "x\n\ny").map (fun lineText =>
        Line.mk [Span.mk ("    " ++ lineText) { fg := some Color.gray, bg := some codeBg }]) :=
  c7_highlight_contract db0 "x\n\ny" "nosuchlang"

theorem flush_spans_style_stack (s : Renderer) : (flush_spans s).style_stack = s.style_stack := by
  unfold flush_spans
  by_cases h : s.current_spans.isEmpty = true <;> simp [h]

theorem push_blank_style_stack (s : Renderer) :
    (push_blank_line s).style_stack = s.style_stack := by
  unfold push_blank_line
  by_cases h : (match s.lines.getLast? with | some l => line_is_blank l | none => false) = true
  · simp [h]
  · simp only [Bool.not_eq_true] at h
    simp [h]

theorem end_code_block_style_stack (db : HighlightDb) (s : Renderer) :
    (end_code_block db s).style_stack = s.style_stack := by
  unfold end_code_block
  rw [push_blank_style_stack]
  by_cases h : s.code_block_lang.isEmpty = true <;> simp [h]

theorem end_table_style_stack (s : Renderer) : (end_table s).style_stack = s.style_stack := by
  unfold end_table
  by_cases hE : (s.table_header_rows ++ s.table_body_rows).isEmpty = true
  · rw [if_pos hE]
  · rw [if_neg hE]
    by_cases hC : maxCols (s.table_header_rows ++ s.table_body_rows) = 0
    · rw [if_pos hC]
    · rw [if_neg hC]
      rw [push_blank_style_stack]

theorem style_stack_step (db : HighlightDb) (s : Renderer) (e : Event) :
    (processEvent db s e).style_stack.length =
      (if isStylePush e then s.style_stack.length + 1
       else if isStylePop e then s.style_stack.length - 1
       else s.style_stack.length) := by
  cases e with
  | start tag =>
    cases tag with
    | heading level => simp [processEvent, start_tag, start_heading, isStylePush, isStylePop]
    | paragraph =>
      simp only [processEvent, start_tag, start_paragraph, isStylePush, isStylePop,
        Bool.false_eq_true, if_false]
      by_cases hd : s.blockquote_depth > 0
      · simp [hd]
      · simp [hd]
    | strong => simp [processEvent, start_tag, push_modifier, isStylePush, isStylePop]
    | emphasis => simp [processEvent, start_tag, push_modifier, isStylePush, isStylePop]
    | strikethrough => simp [processEvent, start_tag, push_modifier, isStylePush, isStylePop]
    | codeBlock kind => simp [processEvent, start_tag, start_code_block, isStylePush, isStylePop]
    | blockQuote => simp [processEvent, start_tag, isStylePush, isStylePop]
    | list firstItem =>
      cases firstItem with
      | some n => simp [processEvent, start_tag, start_list, isStylePush, isStylePop]
      | none => simp [processEvent, start_tag, start_list, isStylePush, isStylePop]
    | item =>
      simp only [processEvent, start_tag, start_item, isStylePush, isStylePop,
        Bool.false_eq_true, if_false]
      cases hk : (flush_spans s).list_stack.getLast? with
      | none => simp [hk, flush_spans_style_stack]
      | some k =>
        cases k with
        | unordered d => simp [hk, flush_spans_style_stack]
        | ordered n => simp [hk, flush_spans_style_stack]
    | link destUrl => simp [processEvent, start_tag, start_link, isStylePush, isStylePop]
    | image destUrl => simp [processEvent, start_tag, start_image, isStylePush, isStylePop]
    | table => simp [processEvent, start_tag, start_table, isStylePush, isStylePop]
    | tableHead => simp [processEvent, start_tag, isStylePush, isStylePop]
    | tableRow => simp [processEvent, start_tag, isStylePush, isStylePop]
    | tableCell => simp [processEvent, start_tag, isStylePush, isStylePop]
  | endTag tag =>
    cases tag with
    | heading level =>
      simp only [processEvent, end_tag, isStylePush, isStylePop, Bool.false_eq_true,
        if_false, if_true]
      rw [push_blank_style_stack, flush_spans_style_stack]
      simp [List.length_dropLast]
    | paragraph =>
      simp only [processEvent, end_tag, isStylePush, isStylePop]
      rw [push_blank_style_stack, flush_spans_style_stack]
      simp
    | strong => simp [processEvent, end_tag, isStylePush, isStylePop, List.length_dropLast]
    | emphasis => simp [processEvent, end_tag, isStylePush, isStylePop, List.length_dropLast]
    | strikethrough => simp [processEvent, end_tag, isStylePush, isStylePop, List.length_dropLast]
    | codeBlock =>
      simp only [processEvent, end_tag, isStylePush, isStylePop]
      rw [end_code_block_style_stack]
      simp
    | blockQuote =>
      simp only [processEvent, end_tag, isStylePush, isStylePop, Bool.false_eq_true, if_false]
      by_cases hd : s.blockquote_depth - 1 = 0
      · rw [if_pos hd, push_blank_style_stack]
      · rw [if_neg hd]
    | list =>
      simp only [processEvent, end_tag, isStylePush, isStylePop, Bool.false_eq_true, if_false]
      by_cases hd : s.list_stack.dropLast.isEmpty = true
      · rw [if_pos hd, push_blank_style_stack]
      · rw [if_neg hd]
    | item =>
      simp only [processEvent, end_tag, isStylePush, isStylePop]
      rw [flush_spans_style_stack]
      simp
    | link =>
      simp only [processEvent, end_tag, isStylePush, isStylePop, if_true]
      cases hu : s.link_url with
      | none => simp [hu, List.length_dropLast]
      | some url => simp [hu, List.length_dropLast]
    | image => simp [processEvent, end_tag, isStylePush, isStylePop]
    | table =>
      simp only [processEvent, end_tag, isStylePush, isStylePop]
      rw [end_table_style_stack]
      simp
    | tableHead => simp [processEvent, end_tag, isStylePush, isStylePop]
    | tableRow => simp [processEvent, end_tag, isStylePush, isStylePop]
    | tableCell => simp [processEvent, end_tag, isStylePush, isStylePop]
  | text t =>
    simp only [processEvent, handle_text, isStylePush, isStylePop]
    by_cases hcb : s.in_code_block = true
    · simp [hcb]
    · by_cases htb : s.in_table = true
      · simp [hcb, htb]
      · by_cases hd : s.blockquote_depth > 0
        · simp [hcb, htb, hd]
        · simp [hcb, htb, hd]
  | code c =>
    simp only [processEvent, handle_inline_code, isStylePush, isStylePop]
    by_cases htb : s.in_table = true
    · simp [htb]
    · simp [htb]
  | softBreak =>
    simp only [processEvent, isStylePush, isStylePop]
    rw [flush_spans_style_stack]
    simp
  | hardBreak =>
    simp only [processEvent, isStylePush, isStylePop]
    rw [flush_spans_style_stack]
    simp
  | taskListMarker checked =>
    simp [processEvent, handle_task_marker, isStylePush, isStylePop]
  | rule =>
    simp only [processEvent, handle_rule, isStylePush, isStylePop]
    rw [push_blank_style_stack]
    simp [flush_spans_style_stack]

theorem style_stack_length_run (db : HighlightDb) (events : List Event)
    (hwf : ∀ n : Nat, popCount (events.take n) ≤ pushCount (events.take n)) :
    ∀ n : Nat, (processEvents db initRenderer (events.take n)).style_stack.length =
      1 + pushCount (events.take n) - popCount (events.take n) := by
  intro n
  induction n with
  | zero => simp [processEvents, pushCount, popCount, initRenderer]
  | succ m ih =>
    rw [List.take_succ]
    cases hg : events[m]? with
    | none =>
      simp only [hg, Option.toList_none, List.append_nil]
      exact ih
    | some e =>
      simp only [hg, Option.toList_some]
      rw [show processEvents db initRenderer (events.take m ++ [e]) =
        processEvent db (processEvents db initRenderer (events.take m)) e from by
          simp [processEvents, List.foldl_append]]
      rw [style_stack_step, ih]
      have hm : popCount (events.take m) ≤ pushCount (events.take m) := hwf m
      have hm1 : popCount (events.take (m + 1)) ≤ pushCount (events.take (m + 1)) := hwf (m + 1)
      rw [List.take_succ, hg, Option.toList_some] at hm1
      have hpushm1 : pushCount (events.take m ++ [e]) =
          pushCount (events.take m) + (if isStylePush e then 1 else 0) := by
        simp [pushCount, List.countP_append, List.countP_cons]
      have hpopm1 : popCount (events.take m ++ [e]) =
          popCount (events.take m) + (if isStylePop e then 1 else 0) := by
        simp [popCount, List.countP_append, List.countP_cons]
      rw [hpushm1, hpopm1] at hm1 ⊢
      by_cases hp : isStylePush e = true
      · have hnp : isStylePop e = false := by
          cases e with
          | start tag => cases tag <;> simp [isStylePop]
          | endTag tag => simp [isStylePush] at hp
          | text t => simp [isStylePush] at hp
          | code c => simp [isStylePush] at hp
          | softBreak => simp [isStylePush] at hp
          | hardBreak => simp [isStylePush] at hp
          | taskListMarker checked => simp [isStylePush] at hp
          | rule => simp [isStylePush] at hp
        simp only [hp, hnp, if_true, Bool.false_eq_true, if_false]
        omega
      · simp only [hp, Bool.false_eq_true, if_false] at hm1 ⊢
        by_cases hq : isStylePop e = true
        · simp only [hq, if_true] at hm1 ⊢
          omega
        · simp only [hq, Bool.false_eq_true, if_false] at hm1 ⊢
          omega

/-- C9: along any event stream whose every prefix is balanced (pops never
exceed pushes, which holds for well-formed streams where every start has a
matching end), the style-scope stack is non-empty after processing any
prefix: the base default style pushed at construction is never popped. -/
theorem c9_style_stack_never_empty (db : HighlightDb) (events : List Event)
    (hwf : ∀ n : Nat, popCount (events.take n) ≤ pushCount (events.take n)) :
    ∀ n : Nat, (processEvents db initRenderer (events.take n)).style_stack ≠ [] := by
  intro n
  have hlen := style_stack_length_run db events hwf n
  have hm := hwf n
  intro hcon
  rw [hcon] at hlen
  simp at hlen
  omega

/-- Witness for C9 at the concrete well-formed stream
`[Start Strong, Text "a", End Strong]`, prefix length 2. -/
theorem c9_style_stack_never_empty_witness :
    (processEvents db0 initRenderer
      ([Event.start Tag.strong, Event.text "a", Event.endTag TagEnd.strong].take 2)).style_stack ≠ [] := by
  refine c9_style_stack_never_empty db0 _ ?_ 2
  intro n
  match n with
  | 0 => decide
  | 1 => decide
  | 2 => decide
  | 3 => decide
  | (m + 4) =>
    rw [List.take_of_length_le (by simp)]
    decide

/-! ## C5: ordered-list numbering -/

theorem str_empty_append (s : String) : "" ++ s = s := by
  cases s with
  | mk data => rfl

theorem strRepeat_zero (s : String) : strRepeat s 0 = "" := rfl

theorem push_blank_list_stack (s : Renderer) : (push_blank_line s).list_stack = s.list_stack := by
  unfold push_blank_line
  by_cases h : (match s.lines.getLast? with | some l => line_is_blank l | none => false) = true
  · simp [h]
  · simp only [Bool.not_eq_true] at h
    simp [h]

theorem ord_one_item (db : HighlightDb) (n : Nat) (ls : List Line) (t : String) :
    processEvent db (processEvent db (processEvent db (ordState n ls)
      (Event.start Tag.item)) (Event.text t)) (Event.endTag TagEnd.item) =
    ordState (n + 1) (ls ++ [orderedItemLine n t]) := by
  simp [ordState, initRenderer, processEvent, start_tag, start_item, flush_spans,
    handle_text, end_tag, quoteMarkSpans, strRepeat_zero, Renderer.current_style,
    orderedItemLine, str_empty_append]

theorem ord_items_run (db : HighlightDb) :
    ∀ (ts : List String) (n : Nat) (ls : List Line),
      processEvents db (ordState n ls) (orderedItemEvents ts) =
        ordState (n + ts.length) (ls ++ orderedItemLines n ts) := by
  intro ts
  induction ts with
  | nil =>
    intro n ls
    simp [orderedItemEvents, processEvents, orderedItemLines]
  | cons t ts ih =>
    intro n ls
    have hsplit : orderedItemEvents (t :: ts) =
        Event.start Tag.item :: Event.text t :: Event.endTag TagEnd.item ::
          orderedItemEvents ts := rfl
    rw [hsplit]
    rw [show processEvents db (ordState n ls)
        (Event.start Tag.item :: Event.text t :: Event.endTag TagEnd.item ::
          orderedItemEvents ts) =
      processEvents db (processEvent db (processEvent db (processEvent db (ordState n ls)
        (Event.start Tag.item)) (Event.text t)) (Event.endTag TagEnd.item))
        (orderedItemEvents ts) from rfl]
    rw [ord_one_item, ih]
    have h1 : n + 1 + ts.length = n + (ts.length + 1) := by omega
    rw [h1]
    simp [orderedItemLines]

theorem orderedItemLines_nonblank :
    ∀ (ts : List String) (n : Nat), ∀ l ∈ orderedItemLines n ts, line_is_blank l = false := by
  intro ts
  induction ts with
  | nil => intro n l hl; simp [orderedItemLines] at hl
  | cons t ts ih =>
    intro n l hl
    simp only [orderedItemLines, List.mem_cons] at hl
    rcases hl with rfl | hl
    · apply line_is_blank_cons_false
      show strBlank (toString n ++ ". ") = false
      rw [strBlank_append]
      have hd : strBlank ". " = false := by decide
      rw [hd, Bool.and_false]
    · exact ih (n + 1) l hl

theorem strip_all_nonblank (ls : List Line) (h : ∀ l ∈ ls, line_is_blank l = false) :
    stripTrailingBlanks ls = ls := by
  induction ls with
  | nil => rfl
  | cons a tl ih =>
    have hr : stripTrailingBlanks tl = tl := ih (fun l hl => h l (List.mem_cons_of_mem a hl))
    unfold stripTrailingBlanks
    rw [hr]
    cases tl with
    | nil => simp [h a (by simp)]
    | cons x xs => simp

/-- C5: a flat ordered list declared with first value `S` and holding item
texts `ts` renders exactly as the lines `S. `, `S+1. `, ..., `S+N-1. `
(each marker followed by its item text) in input order — the counter is
bumped when each item's prefix is generated; moreover every list start
pushes a fresh counter entry onto the list stack and every list end pops
only its own entry, so nested lists carry independent counters. -/
theorem c5_ordered_numbering (db : HighlightDb) (S : Nat) (texts : List String)
    (hne : texts ≠ []) :
    renderEvents db (orderedListEvents S texts) = orderedItemLines S texts
    ∧ (∀ (s : Renderer) (S2 : Nat),
        (processEvent db s (Event.start (Tag.list (some S2)))).list_stack =
          s.list_stack ++ [ListKind.ordered S2])
    ∧ (∀ s : Renderer,
        (processEvent db s (Event.endTag TagEnd.list)).list_stack = s.list_stack.dropLast) := by
  refine ⟨?_, ?_, ?_⟩
  · unfold renderEvents orderedListEvents
    rw [show processEvents db initRenderer
        (Event.start (Tag.list (some S)) :: (orderedItemEvents texts ++ [Event.endTag TagEnd.list])) =
      processEvents db (processEvent db initRenderer (Event.start (Tag.list (some S))))
        (orderedItemEvents texts ++ [Event.endTag TagEnd.list]) from rfl]
    rw [show processEvent db initRenderer (Event.start (Tag.list (some S))) = ordState S [] from rfl]
    rw [show processEvents db (ordState S []) (orderedItemEvents texts ++ [Event.endTag TagEnd.list]) =
      processEvent db (processEvents db (ordState S []) (orderedItemEvents texts))
        (Event.endTag TagEnd.list) from by
      simp [processEvents, List.foldl_append]]
    rw [ord_items_run]
    simp only [List.nil_append]
    obtain ⟨t0, ts0, rfl⟩ : ∃ t0 ts0, texts = t0 :: ts0 := by
      cases texts with
      | nil => exact absurd rfl hne
      | cons a b => exact ⟨a, b, rfl⟩
    have hoil : orderedItemLines S (t0 :: ts0) =
        orderedItemLine S t0 :: orderedItemLines (S + 1) ts0 := rfl
    simp only [processEvent, end_tag, ordState]
    rw [show (List.dropLast [ListKind.ordered (S + (t0 :: ts0).length)]) = [] from rfl]
    simp only [List.isEmpty_nil, if_true]
    unfold push_blank_line
    have hlast : (orderedItemLines S (t0 :: ts0)).getLast? = some ((orderedItemLines S (t0 :: ts0)).getLast (by simp [hoil])) := List.getLast?_eq_getLast _ _
    have hlastnb : line_is_blank ((orderedItemLines S (t0 :: ts0)).getLast (by simp [hoil])) = false :=
      orderedItemLines_nonblank (t0 :: ts0) S _ (List.getLast_mem _)
    simp only [hlast, hlastnb, Bool.false_eq_true, if_false]
    rw [flush_spans_of_empty _ rfl]
    simp only
    rw [strip_append_blank _ _ (by decide)]
    rw [strip_all_nonblank _ (orderedItemLines_nonblank (t0 :: ts0) S)]
    rw [if_neg (by simp [hoil])]
  · intro s S2
    simp [processEvent, start_tag, start_list]
  · intro s
    simp only [processEvent, end_tag]
    by_cases hd : s.list_stack.dropLast.isEmpty = true
    · rw [if_pos hd, push_blank_list_stack]
    · rw [if_neg hd]

/-- Witness for C5: the list `3. a`, `4. b`. -/
theorem c5_ordered_numbering_witness :
    renderEvents db0 (orderedListEvents 3 ["a", "b"]) = orderedItemLines 3 ["a", "b"] :=
  (c5_ordered_numbering db0 3 ["a", "b"] (by decide)).1

/-! ## Table layout lemmas (column widths and border junctions) -/

theorem getD_set_self (l : List Nat) (i v : Nat) (h : i < l.length) :
    (l.set i v).getD i 0 = v := by
  rw [List.getD_eq_getElem?_getD, List.getElem?_set_self h]
  rfl

theorem getD_set_ne (l : List Nat) (i j v : Nat) (h : i ≠ j) :
    (l.set i v).getD j 0 = l.getD j 0 := by
  rw [List.getD_eq_getElem?_getD, List.getElem?_set_ne h, ← List.getD_eq_getElem?_getD]

theorem getD_set_le (l : List Nat) (i j v : Nat) (hv : l.getD i 0 ≤ v) :
    l.getD j 0 ≤ (l.set i v).getD j 0 := by
  by_cases hij : i = j
  · subst hij
    by_cases hi : i < l.length
    · rw [getD_set_self l i v hi]
      exact hv
    · rw [List.set_eq_of_length_le (by omega)]
  · rw [getD_set_ne l i j v hij]

theorem updateRowWidthsAux_length (row : List (List Span)) :
    ∀ (ws : List Nat) (i : Nat), (updateRowWidthsAux ws row i).length = ws.length := by
  induction row with
  | nil => intro ws i; rfl
  | cons cell cells ih =>
    intro ws i
    rw [updateRowWidthsAux, ih, List.length_set]

theorem updateRowWidthsAux_mono (row : List (List Span)) :
    ∀ (ws : List Nat) (i j : Nat), ws.getD j 0 ≤ (updateRowWidthsAux ws row i).getD j 0 := by
  induction row with
  | nil => intro ws i j; exact Nat.le_refl _
  | cons cell cells ih =>
    intro ws i j
    rw [updateRowWidthsAux]
    refine Nat.le_trans ?_ (ih _ (i + 1) j)
    exact getD_set_le ws i j _ (Nat.le_max_left _ _)

theorem updateRowWidthsAux_hit (row : List (List Span)) :
    ∀ (ws : List Nat) (i c : Nat), c < row.length → i + c < ws.length →
      cellContentLen (row.getD c []) + 2 ≤ (updateRowWidthsAux ws row i).getD (i + c) 0 := by
  induction row with
  | nil => intro ws i c hc _; simp at hc
  | cons cell cells ih =>
    intro ws i c hc hlt
    rw [updateRowWidthsAux]
    cases c with
    | zero =>
      refine Nat.le_trans ?_ (updateRowWidthsAux_mono cells _ (i + 1) i)
      rw [getD_set_self ws i _ (by omega)]
      exact Nat.le_max_right _ _
    | succ c0 =>
      have h1 : i + (c0 + 1) = (i + 1) + c0 := by omega
      rw [h1]
      have h2 : (cell :: cells).getD (c0 + 1) [] = cells.getD c0 [] := by
        simp [List.getD]
      rw [h2]
      refine ih _ (i + 1) c0 (by simpa using hc) ?_
      rw [List.length_set]
      omega

theorem foldl_updateRow_length (rows : List (List (List Span))) :
    ∀ acc : List Nat, (rows.foldl updateRowWidths acc).length = acc.length := by
  induction rows with
  | nil => intro acc; rfl
  | cons r rs ih =>
    intro acc
    rw [List.foldl_cons, ih, updateRowWidths, updateRowWidthsAux_length]

theorem foldl_updateRow_mono (rows : List (List (List Span))) :
    ∀ (acc : List Nat) (j : Nat), acc.getD j 0 ≤ (rows.foldl updateRowWidths acc).getD j 0 := by
  induction rows with
  | nil => intro acc j; exact Nat.le_refl _
  | cons r rs ih =>
    intro acc j
    rw [List.foldl_cons]
    exact Nat.le_trans (updateRowWidthsAux_mono r acc 0 j) (ih _ j)

theorem foldl_updateRow_bound (rows : List (List (List Span))) :
    ∀ (acc : List Nat) (row : List (List Span)), row ∈ rows →
      ∀ c : Nat, c < row.length → c < acc.length →
        cellContentLen (row.getD c []) + 2 ≤ (rows.foldl updateRowWidths acc).getD c 0 := by
  induction rows with
  | nil => intro acc row hmem; simp at hmem
  | cons r rs ih =>
    intro acc row hmem c hc hacc
    rw [List.foldl_cons]
    rcases List.mem_cons.mp hmem with rfl | hmem2
    · refine Nat.le_trans ?_ (foldl_updateRow_mono rs _ c)
      have := updateRowWidthsAux_hit row acc 0 c hc (by simpa using hacc)
      simpa using this
    · refine ih _ row hmem2 c hc ?_
      rw [updateRowWidths, updateRowWidthsAux_length]
      exact hacc

theorem getD_replicate_three (k i : Nat) (h : i < k) : (List.replicate k 3).getD i 0 = 3 := by
  rw [List.getD_eq_getElem?_getD, List.getElem?_replicate_of_lt h]
  rfl

theorem init_le_foldl_max (l : List Nat) : ∀ a : Nat, a ≤ l.foldl max a := by
  induction l with
  | nil => intro a; exact Nat.le_refl _
  | cons x xs ih =>
    intro a
    rw [List.foldl_cons]
    exact Nat.le_trans (Nat.le_max_left a x) (ih _)

theorem mem_le_foldl_max (l : List Nat) : ∀ (a x : Nat), x ∈ l → x ≤ l.foldl max a := by
  induction l with
  | nil => intro a x hx; simp at hx
  | cons y ys ih =>
    intro a x hx
    rw [List.foldl_cons]
    rcases List.mem_cons.mp hx with rfl | hx2
    · exact Nat.le_trans (Nat.le_max_right a x) (init_le_foldl_max ys _)
    · exact ih _ x hx2

theorem le_maxCols (rows : List (List (List Span))) (row : List (List Span)) (h : row ∈ rows) :
    row.length ≤ maxCols rows :=
  mem_le_foldl_max _ 0 _ (List.mem_map_of_mem List.length h)

theorem computeColWidths_length (rows : List (List (List Span))) (k : Nat) :
    (computeColWidths rows k).length = k := by
  rw [computeColWidths, foldl_updateRow_length, List.length_replicate]

theorem computeColWidths_ge_three (rows : List (List (List Span))) (k i : Nat) (h : i < k) :
    3 ≤ (computeColWidths rows k).getD i 0 := by
  rw [computeColWidths]
  refine Nat.le_trans ?_ (foldl_updateRow_mono rows _ i)
  rw [getD_replicate_three k i h]

theorem computeColWidths_ge_cell (rows : List (List (List Span))) (k : Nat)
    (row : List (List Span)) (hmem : row ∈ rows) (i : Nat) (hi : i < row.length)
    (hik : i < k) :
    cellContentLen (row.getD i []) + 2 ≤ (computeColWidths rows k).getD i 0 := by
  rw [computeColWidths]
  exact foldl_updateRow_bound rows _ row hmem i hi (by simpa using hik)

theorem filter_replicate_false (n : Nat) (c : Char) (p : Char → Bool) (h : p c = false) :
    (List.replicate n c).filter p = [] := by
  induction n with
  | zero => rfl
  | succ m ih =>
    rw [List.replicate_succ, List.filter_cons, h]
    simpa using ih

theorem borderBody_junction_count (l m r : Char)
    (hf : ((('─' : Char) = l : Bool) || (('─' : Char) = m : Bool) || (('─' : Char) = r : Bool)) = false) :
    ∀ ws : List Nat, ws ≠ [] →
      ((borderBody ws m).filter (fun ch => (ch = l : Bool) || (ch = m : Bool) || (ch = r : Bool))).length
        = ws.length - 1 := by
  intro ws
  induction ws with
  | nil => intro h; exact absurd rfl h
  | cons w tail ih =>
    intro _
    cases tail with
    | nil =>
      rw [show borderBody [w] m = List.replicate w '─' from rfl]
      rw [filter_replicate_false w '─' _ hf]
      rfl
    | cons w2 rest =>
      rw [show borderBody (w :: w2 :: rest) m = List.replicate w '─' ++ m :: borderBody (w2 :: rest) m from rfl]
      rw [List.filter_append, filter_replicate_false w '─' _ hf, List.nil_append,
        List.filter_cons]
      have hm : ((m = l : Bool) || (m = m : Bool) || (m = r : Bool)) = true := by
        simp
      rw [if_pos hm]
      have htail := ih (by simp)
      simp only [List.length_cons] at htail ⊢
      rw [htail]
      omega

theorem border_junction_count (ws : List Nat) (l m r : Char) (hne : ws ≠ [])
    (hf : ((('─' : Char) = l : Bool) || (('─' : Char) = m : Bool) || (('─' : Char) = r : Bool)) = false) :
    countJunctions (build_table_border ws l m r) l m r = ws.length + 1 := by
  rw [countJunctions, build_table_border]
  rw [show (String.mk (l :: (borderBody ws m ++ [r]))).data = l :: (borderBody ws m ++ [r]) from rfl]
  have hl : ((l = l : Bool) || (l = m : Bool) || (l = r : Bool)) = true := by simp
  rw [List.filter_cons, if_pos hl]
  rw [List.filter_append, List.filter_cons]
  have hr : ((r = l : Bool) || (r = m : Bool) || (r = r : Bool)) = true := by simp
  rw [if_pos hr]
  simp only [List.filter_nil, List.length_cons, List.length_append, List.length_nil]
  rw [borderBody_junction_count l m r hf ws hne]
  have : ws.length ≥ 1 := by
    cases ws with
    | nil => exact absurd rfl hne
    | cons a b => simp
  omega

/-! ## C4: table layout -/

theorem push_blank_lines_generic (s2 : Renderer) :
    (push_blank_line s2).lines =
      (if (match s2.lines.getLast? with | some l => line_is_blank l | none => false) = true
       then s2.lines else s2.lines ++ [emptyLine]) := by
  unfold push_blank_line
  by_cases h : (match s2.lines.getLast? with | some l => line_is_blank l | none => false) = true
  · simp [h]
  · simp only [Bool.not_eq_true] at h
    simp [h]

/-- C4: for a buffered table with header rows `H` and body rows `B`
(`k` = max cell count over all rows, `ws` = the computed column widths),
every column's width is at least 3 and at least the longest cell content
(byte length) in that column plus 2; the top, middle and bottom border
strings contain exactly `k+1` junction glyphs each; and `end_table` emits
exactly: top border, header rows, middle border, body rows, bottom border,
then one blank line. -/
theorem c4_table_layout (s : Renderer) (H B : List (List (List Span))) (k : Nat)
    (ws : List Nat)
    (hH : s.table_header_rows = H) (hB : s.table_body_rows = B)
    (hne : H ++ B ≠ []) (hkdef : k = maxCols (H ++ B)) (hk : 0 < k)
    (hws : ws = computeColWidths (H ++ B) k) :
    (∀ i, i < k →
      3 ≤ ws.getD i 0 ∧
      ∀ row ∈ H ++ B, i < row.length →
        cellContentLen (row.getD i []) + 2 ≤ ws.getD i 0)
    ∧ countJunctions (build_table_border ws '┌' '┬' '┐') '┌' '┬' '┐' = k + 1
    ∧ countJunctions (build_table_border ws '├' '┼' '┤') '├' '┼' '┤' = k + 1
    ∧ countJunctions (build_table_border ws '└' '┴' '┘') '└' '┴' '┘' = k + 1
    ∧ (end_table s).lines =
        s.lines ++ [mkBorderLine ws '┌' '┬' '┐']
          ++ H.map (fun row => build_table_row_line row ws true)
          ++ [mkBorderLine ws '├' '┼' '┤']
          ++ B.map (fun row => build_table_row_line row ws false)
          ++ [mkBorderLine ws '└' '┴' '┘'] ++ [emptyLine] := by
  subst hkdef
  subst hws
  have hwsne : computeColWidths (H ++ B) (maxCols (H ++ B)) ≠ [] := by
    intro hcon
    have hl := computeColWidths_length (H ++ B) (maxCols (H ++ B))
    rw [hcon] at hl
    simp at hl
    omega
  refine ⟨?_, ?_, ?_, ?_, ?_⟩
  · intro i hi
    refine ⟨computeColWidths_ge_three _ _ i hi, ?_⟩
    intro row hmem hrow
    exact computeColWidths_ge_cell _ _ row hmem i hrow hi
  · rw [border_junction_count _ _ _ _ hwsne (by decide), computeColWidths_length]
  · rw [border_junction_count _ _ _ _ hwsne (by decide), computeColWidths_length]
  · rw [border_junction_count _ _ _ _ hwsne (by decide), computeColWidths_length]
  · unfold end_table
    rw [hH, hB]
    rw [if_neg (by
      intro hcon
      exact hne (List.isEmpty_iff.mp hcon))]
    rw [if_neg (by
      intro hcon
      omega)]
    rw [push_blank_lines_generic]
    have hbb : line_is_blank
        (mkBorderLine (computeColWidths (H ++ B) (maxCols (H ++ B))) '└' '┴' '┘') = false :=
      border_nonblank _ _ _ _ (by decide)
    simp only [List.getLast?_concat]
    simp only [hbb, Bool.false_eq_true, if_false]

/-- Witness for C4 at the concrete two-column table `Name|Age` over
`Alice|30` buffered in `c4state`. -/
theorem c4_table_layout_witness :
    countJunctions
      (build_table_border
        (computeColWidths (c4state.table_header_rows ++ c4state.table_body_rows)
          (maxCols (c4state.table_header_rows ++ c4state.table_body_rows)))
        '┌' '┬' '┐') '┌' '┬' '┐'
      = maxCols (c4state.table_header_rows ++ c4state.table_body_rows) + 1 :=
  (c4_table_layout c4state _ _ _ _ rfl rfl (by decide) rfl (by decide) rfl).2.1

end TuiMd
